import Mathlib

/-!
Verification of the mini-wallet core: the checksummed-address codec
(`src/core.rs`), the wallet use cases (`src/wallet/*.rs`), and the
file-backed wallet store (`src/fs.rs`).

Bytes are modelled as `Nat` (with explicit `% 2^64` masking where the Rust
code works on machine words), strings of the Rust byte-level API as
`List Nat` of UTF-8 bytes, and `u128` balances as `Nat` below `2^128`.
-/

namespace MiniWallet

/-! ### 64-bit lane arithmetic for Keccak (`tiny_keccak::Keccak::v256`) -/

/-- Left-rotation of a 64-bit lane, values kept below `2 ^ 64`. -/
def rotl64 (n k : Nat) : Nat :=
  ((n <<< k) ||| (n >>> (64 - k))) % (2 ^ 64)

/-- Bitwise complement of a 64-bit lane. -/
def not64 (n : Nat) : Nat :=
  n ^^^ 0xFFFFFFFFFFFFFFFF

/-- The 24 Keccak-f[1600] round constants. -/
def keccakRC : List Nat :=
  [0x0000000000000001, 0x0000000000008082, 0x800000000000808a,
   0x8000000080008000, 0x000000000000808b, 0x0000000080000001,
   0x8000000080008081, 0x8000000000008009, 0x000000000000008a,
   0x0000000000000088, 0x0000000080008009, 0x000000008000000a,
   0x000000008000808b, 0x800000000000008b, 0x8000000000008089,
   0x8000000000008003, 0x8000000000008002, 0x8000000000000080,
   0x000000000000800a, 0x800000008000000a, 0x8000000080008081,
   0x8000000000008080, 0x0000000080000001, 0x8000000080008008]

/-- One Keccak-f[1600] round (θ, ρ, π, χ, ι) on a 25-lane state; lane
`(x, y)` sits at list position `x + 5 * y`. Any list that is not a 25-lane
state is returned unchanged (never happens in this development). -/
def keccakRound (rc : Nat) (s : List Nat) : List Nat :=
  match s with
  | [a00, a10, a20, a30, a40,
     a01, a11, a21, a31, a41,
     a02, a12, a22, a32, a42,
     a03, a13, a23, a33, a43,
     a04, a14, a24, a34, a44] =>
    let c0 := a00 ^^^ a01 ^^^ a02 ^^^ a03 ^^^ a04
    let c1 := a10 ^^^ a11 ^^^ a12 ^^^ a13 ^^^ a14
    let c2 := a20 ^^^ a21 ^^^ a22 ^^^ a23 ^^^ a24
    let c3 := a30 ^^^ a31 ^^^ a32 ^^^ a33 ^^^ a34
    let c4 := a40 ^^^ a41 ^^^ a42 ^^^ a43 ^^^ a44
    let d0 := c4 ^^^ rotl64 c1 1
    let d1 := c0 ^^^ rotl64 c2 1
    let d2 := c1 ^^^ rotl64 c3 1
    let d3 := c2 ^^^ rotl64 c4 1
    let d4 := c3 ^^^ rotl64 c0 1
    let t00 := a00 ^^^ d0
    let t10 := a10 ^^^ d1
    let t20 := a20 ^^^ d2
    let t30 := a30 ^^^ d3
    let t40 := a40 ^^^ d4
    let t01 := a01 ^^^ d0
    let t11 := a11 ^^^ d1
    let t21 := a21 ^^^ d2
    let t31 := a31 ^^^ d3
    let t41 := a41 ^^^ d4
    let t02 := a02 ^^^ d0
    let t12 := a12 ^^^ d1
    let t22 := a22 ^^^ d2
    let t32 := a32 ^^^ d3
    let t42 := a42 ^^^ d4
    let t03 := a03 ^^^ d0
    let t13 := a13 ^^^ d1
    let t23 := a23 ^^^ d2
    let t33 := a33 ^^^ d3
    let t43 := a43 ^^^ d4
    let t04 := a04 ^^^ d0
    let t14 := a14 ^^^ d1
    let t24 := a24 ^^^ d2
    let t34 := a34 ^^^ d3
    let t44 := a44 ^^^ d4
    let b00 := t00
    let b02 := rotl64 t10 1
    let b04 := rotl64 t20 62
    let b01 := rotl64 t30 28
    let b03 := rotl64 t40 27
    let b13 := rotl64 t01 36
    let b10 := rotl64 t11 44
    let b12 := rotl64 t21 6
    let b14 := rotl64 t31 55
    let b11 := rotl64 t41 20
    let b21 := rotl64 t02 3
    let b23 := rotl64 t12 10
    let b20 := rotl64 t22 43
    let b22 := rotl64 t32 25
    let b24 := rotl64 t42 39
    let b34 := rotl64 t03 41
    let b31 := rotl64 t13 45
    let b33 := rotl64 t23 15
    let b30 := rotl64 t33 21
    let b32 := rotl64 t43 8
    let b42 := rotl64 t04 18
    let b44 := rotl64 t14 2
    let b41 := rotl64 t24 61
    let b43 := rotl64 t34 56
    let b40 := rotl64 t44 14
    let f00 := b00 ^^^ (not64 b10 &&& b20)
    let f10 := b10 ^^^ (not64 b20 &&& b30)
    let f20 := b20 ^^^ (not64 b30 &&& b40)
    let f30 := b30 ^^^ (not64 b40 &&& b00)
    let f40 := b40 ^^^ (not64 b00 &&& b10)
    let f01 := b01 ^^^ (not64 b11 &&& b21)
    let f11 := b11 ^^^ (not64 b21 &&& b31)
    let f21 := b21 ^^^ (not64 b31 &&& b41)
    let f31 := b31 ^^^ (not64 b41 &&& b01)
    let f41 := b41 ^^^ (not64 b01 &&& b11)
    let f02 := b02 ^^^ (not64 b12 &&& b22)
    let f12 := b12 ^^^ (not64 b22 &&& b32)
    let f22 := b22 ^^^ (not64 b32 &&& b42)
    let f32 := b32 ^^^ (not64 b42 &&& b02)
    let f42 := b42 ^^^ (not64 b02 &&& b12)
    let f03 := b03 ^^^ (not64 b13 &&& b23)
    let f13 := b13 ^^^ (not64 b23 &&& b33)
    let f23 := b23 ^^^ (not64 b33 &&& b43)
    let f33 := b33 ^^^ (not64 b43 &&& b03)
    let f43 := b43 ^^^ (not64 b03 &&& b13)
    let f04 := b04 ^^^ (not64 b14 &&& b24)
    let f14 := b14 ^^^ (not64 b24 &&& b34)
    let f24 := b24 ^^^ (not64 b34 &&& b44)
    let f34 := b34 ^^^ (not64 b44 &&& b04)
    let f44 := b44 ^^^ (not64 b04 &&& b14)
    [f00 ^^^ rc, f10, f20, f30, f40,
     f01, f11, f21, f31, f41,
     f02, f12, f22, f32, f42,
     f03, f13, f23, f33, f43,
     f04, f14, f24, f34, f44]
  | other => other

/-- The full Keccak-f[1600] permutation: 24 rounds. -/
def keccakP (s : List Nat) : List Nat :=
  keccakRC.foldl (fun st rc => keccakRound rc st) s

/-- Little-endian recombination of a byte list into one lane. -/
def bytesToLane (bs : List Nat) : Nat :=
  bs.foldr (fun b acc => b + 256 * acc) 0

/-- Split a byte list into 64-bit lanes, 8 little-endian bytes each;
a trailing fragment of fewer than 8 bytes is dropped (inputs here are
always a whole number of lanes). -/
def toLanes : List Nat → List Nat
  | b0 :: b1 :: b2 :: b3 :: b4 :: b5 :: b6 :: b7 :: rest =>
    bytesToLane [b0, b1, b2, b3, b4, b5, b6, b7] :: toLanes rest
  | _ => []

/-- The `k` little-endian bytes of a lane. -/
def laneBytes : Nat → Nat → List Nat
  | 0, _ => []
  | k + 1, n => (n % 256) :: laneBytes k (n / 256)

/-- Keccak-256 (original padding byte `0x01`, as `tiny_keccak::Keccak::v256`
uses) of a message of at most 134 bytes — a single 136-byte rate block —
truncated to its first 20 output bytes, exactly as `make_addr_checksum`
finalizes the hash into a 20-byte buffer. -/
def keccak256x20 (msg : List Nat) : List Nat :=
  (((keccakP (toLanes (msg ++ 1 :: List.replicate (134 - msg.length) 0 ++ [128])
      ++ List.replicate 8 0)).take 3).flatMap (laneBytes 8)).take 20

/-! ### ASCII byte helpers (`u8::make_ascii_lowercase` and friends) -/

/-- `u8::to_ascii_lowercase`. -/
def toLowerByte (b : Nat) : Nat :=
  if 65 ≤ b ∧ b ≤ 90 then b + 32 else b

/-- `u8::to_ascii_uppercase`. -/
def toUpperByte (b : Nat) : Nat :=
  if 97 ≤ b ∧ b ≤ 122 then b - 32 else b

/-- `u8::is_ascii_alphabetic`. -/
def isAlphaByte (b : Nat) : Bool :=
  (65 ≤ b && b ≤ 90) || (97 ≤ b && b ≤ 122)

/-! ### Hex codec (the `hex` crate as `core.rs` uses it) -/

/-- Value of one hex digit byte, as the `hex` crate decodes it
(digits, lowercase and uppercase letters); `none` on a non-hex byte. -/
def hexVal (b : Nat) : Option Nat :=
  if 48 ≤ b ∧ b ≤ 57 then some (b - 48)
  else if 97 ≤ b ∧ b ≤ 102 then some (b - 87)
  else if 65 ≤ b ∧ b ≤ 70 then some (b - 55)
  else none

/-- `hex::decode_to_slice`: decode pairs of hex digit bytes into bytes;
`none` models the `FromHexError` on a malformed digit (the caller
guarantees an even length, as `core.rs` does via the `[u8; 40]` cast). -/
def hexDecode : List Nat → Option (List Nat)
  | [] => some []
  | [_] => none
  | hi :: lo :: rest =>
    match hexVal hi, hexVal lo, hexDecode rest with
    | some h, some l, some bs => some ((16 * h + l) :: bs)
    | _, _, _ => none

/-- Lowercase hex digit byte of a nibble, as `hex::encode_to_slice` emits. -/
def hexDigitLower (n : Nat) : Nat :=
  if n < 10 then 48 + n else 87 + n

/-- `hex::encode_to_slice` (lowercase): two hex digit bytes per byte. -/
def hexEncode (bytes : List Nat) : List Nat :=
  bytes.flatMap (fun b => [hexDigitLower (b / 16), hexDigitLower (b % 16)])

/-! ### The address codec (`core.rs`) -/

/-- `make_addr_checksum` (`core.rs:168`): lowercase the 40 hex bytes,
Keccak-256 the lowercased ASCII bytes into a 20-byte hash, then uppercase
every alphabetic hex byte whose nibble (high nibble of hash byte `i / 2`
for even `i`, low nibble for odd `i`) is `≥ 8` and lowercase it otherwise;
digits are left unchanged. -/
def make_addr_checksum (addr : List Nat) : List Nat :=
  let lower := addr.map toLowerByte
  let hash := keccak256x20 lower
  let nibbles := hash.flatMap (fun b => [b >>> 4, b &&& 0xf])
  (lower.zip nibbles).map (fun p =>
    if isAlphaByte p.1 then
      if 8 ≤ p.2 then toUpperByte p.1 else toLowerByte p.1
    else p.1)

/-- `checksum_eq` (`core.rs:162`): the input equals its own checksummed
rendering, byte for byte. -/
def checksum_eq (addr : List Nat) : Bool :=
  addr == make_addr_checksum addr

instance {ε α : Type} [DecidableEq ε] [DecidableEq α] : DecidableEq (Except ε α)
  | .ok a, .ok b => decidable_of_iff (a = b) (by simp)
  | .error a, .error b => decidable_of_iff (a = b) (by simp)
  | .ok _, .error _ => isFalse (by simp)
  | .error _, .ok _ => isFalse (by simp)

/-- The `InnerAddrParseError` cases of `core.rs` (the `Decode` payload, a
`hex::FromHexError`, is not inspected by any caller and is dropped). -/
inductive AddrParseError where
  | MissingPrefix
  | WrongLen
  | BadChecksum
  | Decode
  deriving DecidableEq, Repr

/-- `<Address as FromStr>::from_str` (`core.rs:139`): strip the `0x`
prefix (else `MissingPrefix`), require exactly 40 bytes after it (else
`WrongLen`), hex-decode (else `Decode`), verify `checksum_eq` (else
`BadChecksum`), and return the 20 decoded bytes. The input is the UTF-8
byte list of the Rust `&str`. -/
def addressFromStr (s : List Nat) : Except AddrParseError (List Nat) :=
  match s with
  | 48 :: 120 :: addr_encoded =>
    if addr_encoded.length = 40 then
      match hexDecode addr_encoded with
      | none => .error .Decode
      | some addr_decoded =>
        if checksum_eq addr_encoded then .ok addr_decoded
        else .error .BadChecksum
    else .error .WrongLen
  | _ => .error .MissingPrefix

/-- `<Address as fmt::Display>::fmt` (`core.rs:123`): `0x` (bytes `48`,
`120`) followed by the checksummed lowercase-hex encoding of the 20 raw
bytes. -/
def addressRender (bytes : List Nat) : List Nat :=
  48 :: 120 :: make_addr_checksum (hexEncode bytes)

/-- `flipCaseByte` turns one uppercase ASCII letter lowercase and vice
versa; non-letters are unchanged. Used to state the "one letter's case
changed" part of the checksum property. -/
def flipCaseByte (b : Nat) : Nat :=
  if 65 ≤ b ∧ b ≤ 90 then b + 32
  else if 97 ≤ b ∧ b ≤ 122 then b - 32
  else b

/-! ### Balance (`core.rs`) -/

/-- `ONE_ETH` (`core.rs:60`). -/
def ONE_ETH : Nat := 1000000000000000000

/-- `Balance::eth` (`core.rs:59`): `format!("{whole}.{fraction}")` with
`whole = wei / ONE_ETH` and `fraction = wei % ONE_ETH` — integer division
and modulo on the `u128`, no floating point, and no padding of the
fraction beyond what `{}` prints. -/
def balanceEth (wei : Nat) : String :=
  toString (wei / ONE_ETH) ++ "." ++ toString (wei % ONE_ETH)

/-! ### The wallet domain model (`wallet.rs`, `core.rs`) -/

/-- `WalletErrorKind` (`wallet.rs`). -/
inductive WalletErrorKind where
  | NotFound
  | NameConflict
  | NameEmpty
  | NameTooLong
  | WalletStore
  | WalletClient
  | WalletAddrParse
  deriving DecidableEq, Repr

/-- `core::Wallet`: a parsed 20-byte address plus a `u128` balance in wei. -/
structure CoreWallet where
  address : List Nat
  balance : Nat
  deriving DecidableEq, Repr

/-- `infra::WalletRecord`: a wallet plus its last-update timestamp
(modelled as unix seconds). -/
structure WalletRecord where
  wallet : CoreWallet
  last_update : Int
  deriving DecidableEq, Repr

/-- `NAME_MAX` (`wallet.rs:15`). -/
def NAME_MAX : Nat := 30

/-- `char::is_whitespace`: the Unicode `White_Space` property, which Rust's
`str::trim` uses. -/
def rustIsWhitespace (c : Char) : Bool :=
  (9 ≤ c.toNat && c.toNat ≤ 13) || c.toNat = 32 || c.toNat = 0x85 ||
    c.toNat = 0xA0 || c.toNat = 0x1680 ||
    (0x2000 ≤ c.toNat && c.toNat ≤ 0x200A) || c.toNat = 0x2028 ||
    c.toNat = 0x2029 || c.toNat = 0x202F || c.toNat = 0x205F ||
    c.toNat = 0x3000

/-- `validate_name` (`wallet_track.rs:57`): `NameEmpty` when the name trims
to nothing (it is empty or all-whitespace), else `NameTooLong` when it has
more than `NAME_MAX` Unicode scalar values (`chars().count()`), else
valid. -/
def validate_name (name : String) : Option WalletErrorKind :=
  if name.data.all rustIsWhitespace then some .NameEmpty
  else if NAME_MAX < name.data.length then some .NameTooLong
  else none

/-! ### The wallet store mapping

The `WalletStore` trait's in-memory mapping (a `HashMap` in
`FsWalletStore`) is modelled as an association list in some linearization
of its iteration order; `save` is insert-or-replace, `delete` removes the
key's entry. -/

/-- `WalletStore::exists` on the in-memory mapping. -/
def storeExists {α : Type} (name : String) (st : List (String × α)) : Bool :=
  st.any (fun e => e.1 == name)

/-- `WalletStore::find` on the in-memory mapping. -/
def storeFind {α : Type} (name : String) : List (String × α) → Option α
  | [] => none
  | e :: rest => if e.1 == name then some e.2 else storeFind name rest

/-- `WalletStore::save`: `HashMap::insert` — replace the key's entry if
present, otherwise add one. -/
def storeSave {α : Type} (name : String) (v : α) : List (String × α) → List (String × α)
  | [] => [(name, v)]
  | e :: rest => if e.1 == name then (name, v) :: rest else e :: storeSave name v rest

/-- `WalletStore::delete`: `HashMap::remove`. -/
def storeDelete {α : Type} (name : String) : List (String × α) → List (String × α)
  | [] => []
  | e :: rest => if e.1 == name then rest else e :: storeDelete name rest

/-! ### The Track use case (`wallet_track.rs`) -/

/-- `TrackExecutor::execute` (`wallet_track.rs:32`). The store collaborator
is the mapping plus `existsFail`, which models its `exists` read failing
with a `StoreError` (surfaced as `WalletStore`); the chain client is the
function `client` from parsed address bytes to a balance or a
`ClientError` (surfaced as `WalletClient`); `now` is `Utc::now()`. Returns
the use-case result and the store mapping after the call: `Store::save`
runs only after name validation, the `exists` check, address parsing and
the chain query have all succeeded. -/
def trackExecute (store : List (String × WalletRecord)) (existsFail : Bool)
    (client : List Nat → Except Unit Nat) (now : Int)
    (name : String) (address : List Nat) :
    Except WalletErrorKind Unit × List (String × WalletRecord) :=
  match validate_name name with
  | some e => (.error e, store)
  | none =>
    if existsFail then (.error .WalletStore, store)
    else if storeExists name store then (.error .NameConflict, store)
    else
      match addressFromStr address with
      | .error _ => (.error .WalletAddrParse, store)
      | .ok addr =>
        match client addr with
        | .error _ => (.error .WalletClient, store)
        | .ok bal => (.ok (), storeSave name ⟨⟨addr, bal⟩, now⟩ store)

/-! ### The Untrack use case (`wallet_untrack.rs`) -/

/-- `UntrackExecutor::execute` (`wallet_untrack.rs:25`): `NotFound` when
the name is absent, else delete it; `existsFail` models the `exists` read
failing with a `StoreError`. -/
def untrackExecute (store : List (String × WalletRecord)) (existsFail : Bool)
    (name : String) :
    Except WalletErrorKind Unit × List (String × WalletRecord) :=
  if existsFail then (.error .WalletStore, store)
  else if !storeExists name store then (.error .NotFound, store)
  else (.ok (), storeDelete name store)

/-! ### The List use case (`wallet_list.rs`) -/

/-- The `wallet::Wallet` view `ListExecutor` projects each record to. -/
structure WalletView where
  name : String
  address : List Nat
  balance : String
  last_update : Int
  deriving DecidableEq, Repr

/-- The lowercased sort key of a name under a lowercasing function
`lower`, as the code point sequence of the lowered name — Rust's
`String::cmp` is the byte-lexicographic order on UTF-8, which coincides
with the lexicographic order on code points. `str::to_lowercase` is
standard-library code outside this repository (the full Unicode lowercase
mapping), so it enters the model as the parameter `lower`, and every
theorem about the List use case quantifies over it; the program's actual
mapping is one instance. -/
def nameKey (lower : String → String) (s : String) : List Nat :=
  (lower s).data.map Char.toNat

/-- The comparator of `ListExecutor::execute`:
`a.name.to_lowercase().cmp(&b.name.to_lowercase())`, as a non-strict
order, for the lowercasing function `lower`. -/
def viewLe (lower : String → String) (a b : WalletView) : Prop :=
  nameKey lower a.name ≤ nameKey lower b.name

instance (lower : String → String) : DecidableRel (viewLe lower) := fun a b =>
  inferInstanceAs (Decidable (nameKey lower a.name ≤ nameKey lower b.name))

instance (lower : String → String) : IsTotal WalletView (viewLe lower) :=
  ⟨fun a b => le_total (nameKey lower a.name) (nameKey lower b.name)⟩

instance (lower : String → String) : IsTrans WalletView (viewLe lower) :=
  ⟨fun _ _ _ hab hbc => le_trans hab hbc⟩

/-- The projection of one store entry to a `wallet::Wallet` view:
canonical address text, decimal balance string, timestamp. -/
def recordToView (e : String × WalletRecord) : WalletView :=
  { name := e.1
    address := addressRender e.2.wallet.address
    balance := balanceEth e.2.wallet.balance
    last_update := e.2.last_update }

/-- `ListExecutor::execute` (`wallet_list.rs:26`): project `Store::all()`'s
snapshot to views and sort by lowercased name, where `lower` stands for
the standard library's `str::to_lowercase`. Rust's `sort_by` is a stable
sort on a total preorder comparator, so its output is the unique stable
sorted permutation, here produced by insertion sort. -/
def listExecute (lower : String → String) (store : List (String × WalletRecord)) :
    List WalletView :=
  List.insertionSort (viewLe lower) (store.map recordToView)

/-- The ASCII fragment of the Unicode lowercase mapping: `A`–`Z` map to
`a`–`z` and every other ASCII character is fixed. `str::to_lowercase`
agrees with this on ASCII strings, such as the names of the spec's
concrete List scenario; it is the instantiation used for that example. -/
def asciiCharLower (c : Char) : Char :=
  if 65 ≤ c.toNat ∧ c.toNat ≤ 90 then Char.ofNat (c.toNat + 32) else c

/-- `str::to_lowercase` restricted to ASCII input. -/
def asciiToLowercase (s : String) : String :=
  ⟨s.data.map asciiCharLower⟩

/-! ### The Refresh use case (`wallet_refresh.rs`) -/

/-- `RefreshExecutor::refresh_wallet` (`wallet_refresh.rs:45`): query the
chain for the wallet's address, clone the wallet with the new balance, and
save it under the same name. This iteration of the store maps names to
`core::Wallet` values. -/
def refreshWallet (client : List Nat → Except Unit Nat)
    (st : List (String × CoreWallet)) (name : String) (w : CoreWallet) :
    Except WalletErrorKind (List (String × CoreWallet)) :=
  match client w.address with
  | .error _ => .error .WalletClient
  | .ok bal => .ok (storeSave name { w with balance := bal } st)

/-- The fail-fast sweep of `try_join_all` over the snapshot, under the
sequential completion schedule (futures polled in snapshot order):
`try_join_all` returns the first error and drops the remaining futures,
so entries after the first failing chain query are not refreshed. -/
def refreshGo (client : List Nat → Except Unit Nat) :
    List (String × CoreWallet) → List (String × CoreWallet) →
    Except WalletErrorKind Unit × List (String × CoreWallet)
  | [], st => (.ok (), st)
  | e :: rest, st =>
    match refreshWallet client st e.1 e.2 with
    | .error err => (.error err, st)
    | .ok st' => refreshGo client rest st'

/-- `RefreshExecutor::execute` (`wallet_refresh.rs:30`): take the
`Store::all()` snapshot and sweep it with `try_join_all`. -/
def refreshExecute (client : List Nat → Except Unit Nat)
    (store : List (String × CoreWallet)) :
    Except WalletErrorKind Unit × List (String × CoreWallet) :=
  refreshGo client store store

/-! ### The persisted store format (`fs.rs`, bincode standard config)

`FsWalletStore::write` serializes the full `HashMap<String, FsWallet>`
with `bincode::encode_to_vec(standard())` and writes it to the backing
path; `open` of an existing path reads the file and
`bincode::decode_from_slice`s it. The bincode standard configuration is
little-endian with variable-length integer encoding: an unsigned integer
below 251 is one byte, else a marker byte 251/252/253/254 followed by the
2/4/8/16 little-endian bytes of the value; signed integers are zigzag
mapped first; a `String` is its byte count as a varint followed by its
UTF-8 bytes (names are modelled as those byte lists; decode's UTF-8
re-validation always succeeds on bytes produced by encoding a `String`);
a `[u8; 20]` is its 20 raw bytes with no length prefix; the map is its
entry count as a varint followed by its key-value pairs. -/

/-- The persisted `FsWallet` record (`fs.rs:144`): 20 address bytes, the
`u128` wei balance, the `i64` unix-seconds timestamp. -/
structure FsWallet where
  address : List Nat
  balance : Nat
  last_update : Int
  deriving DecidableEq, Repr

/-- Well-formedness of an in-memory `FsWallet`: what the Rust types
guarantee. -/
def FsWalletWF (w : FsWallet) : Prop :=
  w.address.length = 20 ∧ w.balance < 2 ^ 128 ∧
    -(2 ^ 63) ≤ w.last_update ∧ w.last_update < 2 ^ 63

/-- Split `k` bytes off a stream. -/
def takeBytes : Nat → List Nat → Option (List Nat × List Nat)
  | 0, rest => some ([], rest)
  | _ + 1, [] => none
  | k + 1, b :: rest =>
    match takeBytes k rest with
    | some (bs, r) => some (b :: bs, r)
    | none => none

/-- bincode standard varint encoding of an unsigned integer. -/
def encodeVarint (n : Nat) : List Nat :=
  if n < 251 then [n]
  else if n < 2 ^ 16 then 251 :: laneBytes 2 n
  else if n < 2 ^ 32 then 252 :: laneBytes 4 n
  else if n < 2 ^ 64 then 253 :: laneBytes 8 n
  else 254 :: laneBytes 16 n

/-- bincode standard varint decoding, returning the value and the rest of
the stream. -/
def decodeVarint : List Nat → Option (Nat × List Nat)
  | [] => none
  | b :: rest =>
    if b < 251 then some (b, rest)
    else if b = 251 then (takeBytes 2 rest).map (fun p => (bytesToLane p.1, p.2))
    else if b = 252 then (takeBytes 4 rest).map (fun p => (bytesToLane p.1, p.2))
    else if b = 253 then (takeBytes 8 rest).map (fun p => (bytesToLane p.1, p.2))
    else if b = 254 then (takeBytes 16 rest).map (fun p => (bytesToLane p.1, p.2))
    else none

/-- The zigzag map bincode applies to signed integers before the varint. -/
def zigzag (i : Int) : Nat :=
  if 0 ≤ i then 2 * i.toNat else 2 * (-i).toNat - 1

/-- The inverse zigzag map. -/
def unzigzag (n : Nat) : Int :=
  if n % 2 = 0 then ((n / 2 : Nat) : Int) else -(((n + 1) / 2 : Nat) : Int)

/-- The bincode encoding of one `FsWallet`, fields in declaration order. -/
def encodeWallet (w : FsWallet) : List Nat :=
  w.address ++ encodeVarint w.balance ++ encodeVarint (zigzag w.last_update)

/-- Decode one `FsWallet`. -/
def decodeWallet (bytes : List Nat) : Option (FsWallet × List Nat) :=
  match takeBytes 20 bytes with
  | none => none
  | some (addr, r1) =>
    match decodeVarint r1 with
    | none => none
    | some (bal, r2) =>
      match decodeVarint r2 with
      | none => none
      | some (z, r3) => some (⟨addr, bal, unzigzag z⟩, r3)

/-- The bincode encoding of one map entry: the name's byte count and
bytes, then the record. -/
def encodeEntry (e : List Nat × FsWallet) : List Nat :=
  encodeVarint e.1.length ++ e.1 ++ encodeWallet e.2

/-- Decode one map entry. -/
def decodeEntry (bytes : List Nat) : Option ((List Nat × FsWallet) × List Nat) :=
  match decodeVarint bytes with
  | none => none
  | some (len, r1) =>
    match takeBytes len r1 with
    | none => none
    | some (name, r2) =>
      match decodeWallet r2 with
      | none => none
      | some (w, r3) => some ((name, w), r3)

/-- Decode `k` map entries. -/
def decodeEntries : Nat → List Nat → Option (List (List Nat × FsWallet) × List Nat)
  | 0, rest => some ([], rest)
  | k + 1, rest =>
    match decodeEntry rest with
    | none => none
    | some (e, r) =>
      match decodeEntries k r with
      | none => none
      | some (es, r') => some (e :: es, r')

/-- `FsWalletStore::write`'s `bincode::encode_to_vec` of the full mapping:
the entry count then the entries, in iteration order. -/
def encodeStore (m : List (List Nat × FsWallet)) : List Nat :=
  encodeVarint m.length ++ m.flatMap encodeEntry

/-- `bincode::decode_from_slice` of a persisted mapping (the unread
remainder of the slice is ignored, as `open` ignores `bytes_read`). -/
def decodeStore (bytes : List Nat) : Option (List (List Nat × FsWallet)) :=
  match decodeVarint bytes with
  | none => none
  | some (k, r) =>
    match decodeEntries k r with
    | none => none
    | some (es, _) => some es

/-- `FsWalletStore::open` on a path whose backing file holds `bytes`
(the path-exists case): decode the full content; a decode failure is fatal
to `open`. -/
def storeOpenBytes (bytes : List Nat) : Option (List (List Nat × FsWallet)) :=
  decodeStore bytes

/-! ### Lemmas about case mapping -/

theorem toLowerByte_toLowerByte (b : Nat) :
    toLowerByte (toLowerByte b) = toLowerByte b := by
  simp only [toLowerByte]; split_ifs <;> omega

theorem toLowerByte_toUpperByte (b : Nat) :
    toLowerByte (toUpperByte b) = toLowerByte b := by
  simp only [toLowerByte, toUpperByte]; split_ifs <;> omega

theorem toLowerByte_flipCaseByte (b : Nat) :
    toLowerByte (flipCaseByte b) = toLowerByte b := by
  simp only [toLowerByte, flipCaseByte]; split_ifs <;> omega

theorem flipCaseByte_ne (b : Nat) (h : isAlphaByte b = true) :
    flipCaseByte b ≠ b := by
  simp only [isAlphaByte, Bool.or_eq_true, Bool.and_eq_true, decide_eq_true_eq] at h
  simp only [flipCaseByte]; split_ifs <;> omega

/-! ### Lemmas about the hex codec -/

theorem hexVal_toLowerByte (b : Nat) : hexVal (toLowerByte b) = hexVal b := by
  simp only [hexVal, toLowerByte]; split_ifs <;> first | rfl | omega

theorem hexVal_lt (b v : Nat) (h : hexVal b = some v) : v < 16 := by
  simp only [hexVal] at h
  split_ifs at h <;> simp only [Option.some.injEq] at h <;> omega

theorem hexVal_some_lower (b v : Nat) (h : hexVal b = some v) :
    toLowerByte b = hexDigitLower v := by
  simp only [hexVal] at h
  simp only [toLowerByte, hexDigitLower]
  split_ifs at h <;> simp only [Option.some.injEq] at h <;>
    split_ifs <;> omega

theorem hexVal_hexDigitLower (n : Nat) (h : n < 16) :
    hexVal (hexDigitLower n) = some n := by
  simp only [hexVal, hexDigitLower]
  split_ifs <;> first | (simp only [Option.some.injEq]; omega) | (exfalso; omega)

theorem hexEncode_cons (b : Nat) (bs : List Nat) :
    hexEncode (b :: bs) =
      hexDigitLower (b / 16) :: hexDigitLower (b % 16) :: hexEncode bs := by
  simp [hexEncode]

theorem hexDecode_map_toLowerByte :
    ∀ l : List Nat, hexDecode (l.map toLowerByte) = hexDecode l
  | [] => rfl
  | [b] => rfl
  | hi :: lo :: rest => by
    simp only [List.map_cons, hexDecode, hexVal_toLowerByte,
      hexDecode_map_toLowerByte rest]

theorem hexDecode_lower :
    ∀ l bs : List Nat, hexDecode l = some bs → l.map toLowerByte = hexEncode bs
  | [], bs, h => by
    simp only [hexDecode, Option.some.injEq] at h
    simp [← h, hexEncode]
  | [b], bs, h => by simp [hexDecode] at h
  | hi :: lo :: rest, bs, h => by
    simp only [hexDecode] at h
    rcases hhi : hexVal hi with _ | vh <;> rw [hhi] at h
    · exact absurd h (by simp)
    rcases hlo : hexVal lo with _ | vl <;> rw [hlo] at h
    · exact absurd h (by simp)
    rcases hrest : hexDecode rest with _ | bs' <;> rw [hrest] at h
    · exact absurd h (by simp)
    simp only [Option.some.injEq] at h
    subst h
    have h16h := hexVal_lt _ _ hhi
    have h16l := hexVal_lt _ _ hlo
    have hdiv : (16 * vh + vl) / 16 = vh := by omega
    have hmod : (16 * vh + vl) % 16 = vl := by omega
    rw [List.map_cons, List.map_cons, hexEncode_cons, hdiv, hmod,
      hexVal_some_lower _ _ hhi, hexVal_some_lower _ _ hlo,
      hexDecode_lower rest bs' hrest]

theorem hexDecode_hexEncode (bs : List Nat) (h : ∀ b ∈ bs, b < 256) :
    hexDecode (hexEncode bs) = some bs := by
  induction bs with
  | nil => rfl
  | cons b rest ih =>
    have hb : b < 256 := h b (by simp)
    have hdivlt : b / 16 < 16 := by omega
    have hmodlt : b % 16 < 16 := by omega
    rw [hexEncode_cons]
    simp only [hexDecode, hexVal_hexDigitLower _ hdivlt,
      hexVal_hexDigitLower _ hmodlt, ih (fun x hx => h x (by simp [hx]))]
    congr 2
    omega

theorem hexEncode_length (bs : List Nat) : (hexEncode bs).length = 2 * bs.length := by
  induction bs with
  | nil => rfl
  | cons b rest ih => rw [hexEncode_cons]; simp [ih]; omega

theorem toLowerByte_hexDigitLower (n : Nat) :
    toLowerByte (hexDigitLower n) = hexDigitLower n := by
  simp only [toLowerByte, hexDigitLower]; split_ifs <;> omega

theorem hexEncode_map_toLowerByte (bs : List Nat) :
    (hexEncode bs).map toLowerByte = hexEncode bs := by
  induction bs with
  | nil => rfl
  | cons b rest ih =>
    rw [hexEncode_cons, List.map_cons, List.map_cons,
      toLowerByte_hexDigitLower, toLowerByte_hexDigitLower, ih]

/-! ### Length facts for the hash and the checksum -/

theorem keccakRound_length (rc : Nat) (s : List Nat) :
    (keccakRound rc s).length = s.length := by
  unfold keccakRound
  split <;> simp_all

theorem keccakP_length (s : List Nat) : (keccakP s).length = s.length := by
  have : ∀ (l : List Nat) (t : List Nat),
      (l.foldl (fun st rc => keccakRound rc st) t).length = t.length := by
    intro l
    induction l with
    | nil => intro t; rfl
    | cons rc rest ih => intro t; rw [List.foldl_cons, ih, keccakRound_length]
  exact this keccakRC s

theorem laneBytes_length (k n : Nat) : (laneBytes k n).length = k := by
  induction k generalizing n with
  | zero => rfl
  | succ k ih => simp [laneBytes, ih]

theorem flatMap_laneBytes8_take3_length (st : List Nat) (h : 3 ≤ st.length) :
    (((st.take 3).flatMap (laneBytes 8)).take 20).length = 20 := by
  rcases st with _ | ⟨a, _ | ⟨b, _ | ⟨c, r⟩⟩⟩
  · simp at h
  · simp at h
  · simp at h
  · simp [laneBytes_length]

theorem keccak256x20_length (msg : List Nat) : (keccak256x20 msg).length = 20 := by
  unfold keccak256x20
  apply flatMap_laneBytes8_take3_length
  rw [keccakP_length]
  simp

/-- The checksummed rendering depends only on the lowercase projection of
its input. -/
theorem make_addr_checksum_congr (a b : List Nat)
    (h : a.map toLowerByte = b.map toLowerByte) :
    make_addr_checksum a = make_addr_checksum b := by
  unfold make_addr_checksum
  rw [h]

/-- The nibble stream of the 20-byte hash has exactly 40 entries. -/
theorem nibbles_length (msg : List Nat) :
    ((keccak256x20 msg).flatMap (fun b => [b >>> 4, b &&& 0xf])).length = 40 := by
  have : ∀ l : List Nat, (l.flatMap (fun b => ([b >>> 4, b &&& 0xf] : List Nat))).length
      = 2 * l.length := by
    intro l
    induction l with
    | nil => rfl
    | cons x xs ih => simp [ih]; omega
  rw [this, keccak256x20_length]

theorem make_addr_checksum_length (a : List Nat) (h : a.length ≤ 40) :
    (make_addr_checksum a).length = a.length := by
  unfold make_addr_checksum
  rw [List.length_map, List.length_zip, List.length_map, nibbles_length]
  omega

/-- Lowercasing undoes whatever case the checksum pass chose. -/
theorem map_toLowerByte_make_addr_checksum (a : List Nat) (h : a.length ≤ 40) :
    (make_addr_checksum a).map toLowerByte = a.map toLowerByte := by
  unfold make_addr_checksum
  rw [List.map_map]
  have hpoint : ((a.map toLowerByte).zip ((keccak256x20 (a.map toLowerByte)).flatMap
        (fun b => [b >>> 4, b &&& 0xf]))).map
        (toLowerByte ∘ fun p => if isAlphaByte p.1 = true then
          if 8 ≤ p.2 then toUpperByte p.1 else toLowerByte p.1 else p.1)
      = ((a.map toLowerByte).zip ((keccak256x20 (a.map toLowerByte)).flatMap
        (fun b => [b >>> 4, b &&& 0xf]))).map (fun p => toLowerByte p.1) := by
    apply List.map_congr_left
    intro p _
    simp only [Function.comp_apply]
    split_ifs <;>
      simp [toLowerByte_toLowerByte, toLowerByte_toUpperByte]
  rw [hpoint]
  have hfst : ((a.map toLowerByte).zip ((keccak256x20 (a.map toLowerByte)).flatMap
        (fun b => [b >>> 4, b &&& 0xf]))).map (fun p => toLowerByte p.1)
      = (((a.map toLowerByte).zip ((keccak256x20 (a.map toLowerByte)).flatMap
        (fun b => [b >>> 4, b &&& 0xf]))).map Prod.fst).map toLowerByte := by
    rw [List.map_map]
    rfl
  rw [hfst, List.map_fst_zip _ _ (by rw [nibbles_length]; simp; omega), List.map_map]
  apply List.map_congr_left
  intro b _
  exact toLowerByte_toLowerByte b

/-- The checksummed rendering is a fixed point of itself. -/
theorem make_addr_checksum_idem (a : List Nat) (h : a.length ≤ 40) :
    make_addr_checksum (make_addr_checksum a) = make_addr_checksum a :=
  make_addr_checksum_congr _ _ (map_toLowerByte_make_addr_checksum a h)

/-! ### The canonical rendering of a 20-byte address -/

theorem canon_lower (bytes : List Nat) (hlen : bytes.length = 20) :
    (make_addr_checksum (hexEncode bytes)).map toLowerByte = hexEncode bytes := by
  rw [map_toLowerByte_make_addr_checksum _ (by rw [hexEncode_length]; omega),
    hexEncode_map_toLowerByte]

theorem canon_length (bytes : List Nat) (hlen : bytes.length = 20) :
    (make_addr_checksum (hexEncode bytes)).length = 40 := by
  rw [make_addr_checksum_length _ (by rw [hexEncode_length]; omega),
    hexEncode_length]
  omega

theorem hexDecode_canon (bytes : List Nat) (hlen : bytes.length = 20)
    (hlt : ∀ b ∈ bytes, b < 256) :
    hexDecode (make_addr_checksum (hexEncode bytes)) = some bytes := by
  rw [← hexDecode_map_toLowerByte, canon_lower bytes hlen,
    hexDecode_hexEncode bytes hlt]

theorem make_addr_checksum_canon (bytes : List Nat) (hlen : bytes.length = 20) :
    make_addr_checksum (make_addr_checksum (hexEncode bytes))
      = make_addr_checksum (hexEncode bytes) :=
  make_addr_checksum_idem _ (by rw [hexEncode_length]; omega)

/-- `from_str` reaches the checksum test and rejects exactly the payloads
that differ from the canonical checksummed rendering of their own decoded
bytes. -/
theorem addressFromStr_badChecksum (payload bytes : List Nat)
    (hlen : payload.length = 40) (hdec : hexDecode payload = some bytes)
    (hne : payload ≠ make_addr_checksum (hexEncode bytes)) :
    addressFromStr (48 :: 120 :: payload) = .error .BadChecksum := by
  have hlower : payload.map toLowerByte = hexEncode bytes := hexDecode_lower _ _ hdec
  have hcs : make_addr_checksum payload = make_addr_checksum (hexEncode bytes) := by
    apply make_addr_checksum_congr
    rw [hlower, hexEncode_map_toLowerByte]
  have hfalse : checksum_eq payload = false := by
    unfold checksum_eq
    rw [hcs]
    exact beq_false_of_ne hne
  simp only [addressFromStr]
  rw [if_pos hlen, hdec, hfalse]
  simp

theorem addressFromStr_ok (payload bytes : List Nat)
    (hlen : payload.length = 40) (hdec : hexDecode payload = some bytes)
    (heq : payload = make_addr_checksum (hexEncode bytes)) :
    addressFromStr (48 :: 120 :: payload) = .ok bytes := by
  have hlower : payload.map toLowerByte = hexEncode bytes := hexDecode_lower _ _ hdec
  have hcs : make_addr_checksum payload = make_addr_checksum (hexEncode bytes) := by
    apply make_addr_checksum_congr
    rw [hlower, hexEncode_map_toLowerByte]
  have htrue : checksum_eq payload = true := by
    unfold checksum_eq
    rw [hcs, ← heq]
    simp
  simp only [addressFromStr]
  rw [if_pos hlen, hdec, htrue]
  simp

theorem set_getD_self : ∀ (l : List Nat) (i : Nat), i < l.length →
    l.set i (l.getD i 0) = l
  | _ :: _, 0, _ => rfl
  | a :: rest, i + 1, h => by
    simp only [List.getD_cons_succ, List.set_cons_succ]
    rw [set_getD_self rest i (by simpa using h)]

theorem getD_set_self (l : List Nat) (i v : Nat) (h : i < l.length) :
    (l.set i v).getD i 0 = v := by
  rw [List.getD_eq_getElem _ 0 (by simpa using h)]
  simp

theorem getD_map (l : List Nat) (f : Nat → Nat) (i : Nat) (h : i < l.length) :
    (l.map f).getD i 0 = f (l.getD i 0) := by
  rw [List.getD_eq_getElem _ 0 (by simpa using h),
    List.getD_eq_getElem _ 0 (by simpa using h)]
  simp

/-- **C2.** For all valid 20-byte address values, parsing the rendered
canonical checksummed text (`0x` plus 40 hex characters) succeeds and
returns the original raw bytes: `parse(render(address)) == address`. -/
theorem C2_parse_render_roundtrip (bytes : List Nat) (hlen : bytes.length = 20)
    (hlt : ∀ b ∈ bytes, b < 256) :
    addressFromStr (addressRender bytes) = .ok bytes := by
  unfold addressRender
  exact addressFromStr_ok _ bytes (canon_length bytes hlen)
    (hexDecode_canon bytes hlen hlt) rfl

/-- **C2 witness**: the round trip at the concrete address
`0xd8dA6BF26964aF9D7eEd9e03E53415D37aA96045` from the repository's own
tests. -/
theorem C2_parse_render_roundtrip_witness :
    addressFromStr (addressRender [216, 218, 107, 242, 105, 100, 175, 157, 126,
      237, 158, 3, 229, 52, 21, 211, 122, 169, 96, 69])
      = .ok [216, 218, 107, 242, 105, 100, 175, 157, 126, 237, 158, 3, 229, 52,
        21, 211, 122, 169, 96, 69] :=
  C2_parse_render_roundtrip _ (by decide) (by decide)

/-- **C1.** `parse` rejects with `BadChecksum` every textual address whose
letter casing does not equal the checksummed canonical rendering of its
decoded 20 bytes: (1) any 40-hex-digit payload that decodes but differs
from the canonical rendering of its bytes; (2) the canonical rendering
with exactly one letter's case flipped; (3) the all-lowercased and (4) the
all-uppercased canonical rendering, unless they coincide with the
canonical form. -/
theorem C1_parse_rejects_noncanonical_casing :
    (∀ payload bytes : List Nat, payload.length = 40 →
      hexDecode payload = some bytes →
      payload ≠ make_addr_checksum (hexEncode bytes) →
      addressFromStr (48 :: 120 :: payload) = .error .BadChecksum)
    ∧ (∀ (bytes : List Nat) (i : Nat), bytes.length = 20 →
      (∀ b ∈ bytes, b < 256) → i < 40 →
      isAlphaByte ((make_addr_checksum (hexEncode bytes)).getD i 0) = true →
      addressFromStr (48 :: 120 :: (make_addr_checksum (hexEncode bytes)).set i
        (flipCaseByte ((make_addr_checksum (hexEncode bytes)).getD i 0)))
        = .error .BadChecksum)
    ∧ (∀ bytes : List Nat, bytes.length = 20 → (∀ b ∈ bytes, b < 256) →
      (make_addr_checksum (hexEncode bytes)).map toLowerByte
        ≠ make_addr_checksum (hexEncode bytes) →
      addressFromStr (48 :: 120 :: (make_addr_checksum (hexEncode bytes)).map toLowerByte)
        = .error .BadChecksum)
    ∧ (∀ bytes : List Nat, bytes.length = 20 → (∀ b ∈ bytes, b < 256) →
      (make_addr_checksum (hexEncode bytes)).map toUpperByte
        ≠ make_addr_checksum (hexEncode bytes) →
      addressFromStr (48 :: 120 :: (make_addr_checksum (hexEncode bytes)).map toUpperByte)
        = .error .BadChecksum) := by
  have part1 : ∀ payload bytes : List Nat, payload.length = 40 →
      hexDecode payload = some bytes →
      payload ≠ make_addr_checksum (hexEncode bytes) →
      addressFromStr (48 :: 120 :: payload) = .error .BadChecksum :=
    fun payload bytes hlen hdec hne => addressFromStr_badChecksum payload bytes hlen hdec hne
  refine ⟨part1, ?_, ?_, ?_⟩
  · intro bytes i hlen hlt hi halpha
    have hcslen : (make_addr_checksum (hexEncode bytes)).length = 40 :=
      canon_length bytes hlen
    have hicst : i < (make_addr_checksum (hexEncode bytes)).length := by omega
    apply part1 _ bytes
    · rw [List.length_set, hcslen]
    · rw [← hexDecode_map_toLowerByte, List.map_set, toLowerByte_flipCaseByte,
        ← getD_map _ toLowerByte i hicst,
        set_getD_self _ i (by rw [List.length_map]; omega),
        canon_lower bytes hlen, hexDecode_hexEncode bytes hlt]
    · intro hcontra
      have := congrArg (fun l => l.getD i 0) hcontra
      simp only at this
      rw [getD_set_self _ i _ hicst] at this
      exact flipCaseByte_ne _ halpha this
  · intro bytes hlen hlt hne
    apply part1 _ bytes
    · rw [List.length_map, canon_length bytes hlen]
    · rw [hexDecode_map_toLowerByte, hexDecode_canon bytes hlen hlt]
    · exact hne
  · intro bytes hlen hlt hne
    apply part1 _ bytes
    · rw [List.length_map, canon_length bytes hlen]
    · rw [← hexDecode_map_toLowerByte, List.map_map]
      have : (make_addr_checksum (hexEncode bytes)).map (toLowerByte ∘ toUpperByte)
          = (make_addr_checksum (hexEncode bytes)).map toLowerByte := by
        apply List.map_congr_left
        intro b _
        exact toLowerByte_toUpperByte b
      rw [this, canon_lower bytes hlen, hexDecode_hexEncode bytes hlt]
    · exact hne

/-- **C1 witness**: at `0xd8dA6BF26964aF9D7eEd9e03E53415D37aA96045` — the
all-lowercased payload differs from the canonical casing and is rejected
(part 1), flipping the case of the first letter `d` is rejected (part 2),
and both the all-lowercase and all-uppercase forms are rejected (parts 3
and 4). -/
theorem C1_parse_rejects_noncanonical_casing_witness :
    (addressFromStr (48 :: 120 :: [100, 56, 100, 97, 54, 98, 102, 50, 54, 57,
        54, 52, 97, 102, 57, 100, 55, 101, 101, 100, 57, 101, 48, 51, 101, 53,
        51, 52, 49, 53, 100, 51, 55, 97, 97, 57, 54, 48, 52, 53])
      = .error .BadChecksum)
    ∧ (addressFromStr (48 :: 120 :: (make_addr_checksum (hexEncode [216, 218,
        107, 242, 105, 100, 175, 157, 126, 237, 158, 3, 229, 52, 21, 211, 122,
        169, 96, 69])).set 0 (flipCaseByte ((make_addr_checksum (hexEncode
        [216, 218, 107, 242, 105, 100, 175, 157, 126, 237, 158, 3, 229, 52, 21,
        211, 122, 169, 96, 69])).getD 0 0)))
      = .error .BadChecksum)
    ∧ (addressFromStr (48 :: 120 :: (make_addr_checksum (hexEncode [216, 218,
        107, 242, 105, 100, 175, 157, 126, 237, 158, 3, 229, 52, 21, 211, 122,
        169, 96, 69])).map toUpperByte)
      = .error .BadChecksum) :=
  ⟨C1_parse_rejects_noncanonical_casing.1 _ [216, 218, 107, 242, 105, 100, 175,
      157, 126, 237, 158, 3, 229, 52, 21, 211, 122, 169, 96, 69]
      (by decide) (by decide) (by decide),
   C1_parse_rejects_noncanonical_casing.2.1 [216, 218, 107, 242, 105, 100, 175,
      157, 126, 237, 158, 3, 229, 52, 21, 211, 122, 169, 96, 69] 0
      (by decide) (by decide) (by decide) (by decide),
   C1_parse_rejects_noncanonical_casing.2.2.2 [216, 218, 107, 242, 105, 100,
      175, 157, 126, 237, 158, 3, 229, 52, 21, 211, 122, 169, 96, 69]
      (by decide) (by decide) (by decide)⟩

/-- **C9.** `parse` of any input that does not begin with `0x` fails with
`MissingPrefix` regardless of the rest; `parse` of `0x` followed by a
payload that is not exactly 40 bytes long fails with `WrongLength`. -/
theorem C9_prefix_and_length_errors :
    (∀ s : List Nat, s.take 2 ≠ [48, 120] →
      addressFromStr s = .error .MissingPrefix)
    ∧ (∀ payload : List Nat, payload.length ≠ 40 →
      addressFromStr (48 :: 120 :: payload) = .error .WrongLen) := by
  constructor
  · intro s hs
    unfold addressFromStr
    split
    · exact absurd (by simp) hs
    · rfl
  · intro payload hlen
    simp only [addressFromStr]
    rw [if_neg hlen]

/-- **C9 witness**: `"a"` (no prefix) is `MissingPrefix`; a 39-digit and a
41-digit payload are `WrongLen`. -/
theorem C9_prefix_and_length_errors_witness :
    addressFromStr [97] = .error .MissingPrefix
    ∧ addressFromStr (48 :: 120 :: List.replicate 39 48) = .error .WrongLen
    ∧ addressFromStr (48 :: 120 :: List.replicate 41 48) = .error .WrongLen :=
  ⟨C9_prefix_and_length_errors.1 [97] (by decide),
   C9_prefix_and_length_errors.2 (List.replicate 39 48) (by decide),
   C9_prefix_and_length_errors.2 (List.replicate 41 48) (by decide)⟩

/-! ### Store mapping lemmas -/

theorem storeExists_storeSave_self {α : Type} (name : String) (v : α) :
    ∀ st : List (String × α), storeExists name (storeSave name v st) = true
  | [] => by simp [storeSave, storeExists]
  | e :: rest => by
    by_cases h : e.1 = name
    · simp [storeSave, storeExists, h]
    · simp only [storeSave, storeExists]
      rw [if_neg (by simpa using h)]
      simp only [List.any_cons]
      have := storeExists_storeSave_self name v rest
      simp only [storeExists] at this
      simp [this]

theorem storeSave_not_exists {α : Type} (name : String) (v : α) :
    ∀ st : List (String × α), storeExists name st = false →
      storeSave name v st = st ++ [(name, v)]
  | [], _ => rfl
  | e :: rest, h => by
    simp only [storeExists, List.any_cons, Bool.or_eq_false_iff] at h
    simp only [storeSave]
    rw [if_neg (by simp [h.1]), storeSave_not_exists name v rest (by simp [storeExists, h.2])]
    simp

theorem storeDelete_append_self {α : Type} (name : String) (v : α) :
    ∀ st : List (String × α), storeExists name st = false →
      storeDelete name (st ++ [(name, v)]) = st
  | [], _ => by simp [storeDelete]
  | e :: rest, h => by
    simp only [storeExists, List.any_cons, Bool.or_eq_false_iff] at h
    simp only [List.cons_append, storeDelete]
    rw [if_neg (by simp [h.1])]
    exact congrArg (e :: ·)
      (storeDelete_append_self name v rest (by simp [storeExists, h.2]))

theorem storeFind_storeSave_self {α : Type} (name : String) (v : α) :
    ∀ st : List (String × α), storeFind name (storeSave name v st) = some v
  | [] => by simp [storeSave, storeFind]
  | e :: rest => by
    by_cases h : e.1 = name
    · simp [storeSave, storeFind, h]
    · simp only [storeSave, storeFind]
      rw [if_neg (by simpa using h)]
      simp only [storeFind]
      rw [if_neg (by simpa using h)]
      exact storeFind_storeSave_self name v rest

theorem storeFind_storeSave_other {α : Type} (name other : String) (v : α)
    (hne : other ≠ name) :
    ∀ st : List (String × α), storeFind name (storeSave other v st) = storeFind name st
  | [] => by simp [storeSave, storeFind, hne]
  | e :: rest => by
    by_cases h : e.1 = other
    · simp only [storeSave]
      rw [if_pos (by simpa using h)]
      simp only [storeFind]
      rw [if_neg (by simpa using hne), if_neg (by rw [h]; simpa using hne)]
    · simp only [storeSave]
      rw [if_neg (by simpa using h)]
      simp only [storeFind]
      by_cases he : e.1 = name
      · rw [if_pos (by simpa using he), if_pos (by simpa using he)]
      · rw [if_neg (by simpa using he), if_neg (by simpa using he)]
        exact storeFind_storeSave_other name other v hne rest

/-! ### Inversion of a successful Track -/

theorem trackExecute_ok_inv (store : List (String × WalletRecord))
    (existsFail : Bool) (client : List Nat → Except Unit Nat) (now : Int)
    (name : String) (address : List Nat)
    (store' : List (String × WalletRecord))
    (h : trackExecute store existsFail client now name address = (.ok (), store')) :
    validate_name name = none ∧ existsFail = false ∧
    storeExists name store = false ∧
    ∃ a bal, addressFromStr address = .ok a ∧ client a = .ok bal ∧
      store' = storeSave name ⟨⟨a, bal⟩, now⟩ store := by
  unfold trackExecute at h
  rcases hv : validate_name name with _ | e <;> rw [hv] at h
  case some => simp at h
  rcases hef : existsFail with _ | _ <;> rw [hef] at h
  case true => simp at h
  simp only [Bool.false_eq_true, if_false] at h
  rcases hex : storeExists name store with _ | _ <;> rw [hex] at h
  case true => simp at h
  simp only [Bool.false_eq_true, if_false] at h
  rcases hp : addressFromStr address with e | a <;> rw [hp] at h
  case error => simp at h
  dsimp only at h
  rcases hc : client a with e | bal <;> rw [hc] at h
  case error => simp at h
  dsimp only at h
  simp only [Prod.mk.injEq] at h
  exact ⟨rfl, rfl, rfl, a, bal, rfl, hc, h.2.symm⟩

/-- **C3** (evaluation at the failing input). The concrete scenario of the
spec renders correctly — 3756447340569860785 wei lists as
`"3.756447340569860785"` — but `Balance::eth` does not zero-pad the
fractional part: 0 wei (the balance the repository's own `wallet_list`
test expects to list as `"0.000000000000000000"`) renders as `"0.0"`, and
5 wei renders as `"0.5"` instead of `"0.000000000000000005"`. -/
theorem C3_eth_rendering_not_padded :
    balanceEth 3756447340569860785 = "3.756447340569860785"
    ∧ balanceEth 0 = "0.0"
    ∧ balanceEth 0 ≠ "0.000000000000000000"
    ∧ balanceEth 5 = "0.5" := by
  refine ⟨?_, ?_, ?_, ?_⟩ <;> decide

/-- **C5 (amended).** For every store state and address text: Track of a
name that is empty or all-whitespace fails `NameEmpty` (even when it also
has 31 or more code points); Track of a non-blank name of 31+ code points
fails `NameTooLong`; Track of a valid name already in the store fails
`NameConflict`; and after a successful Track of a name, a second Track of
the same name fails `NameConflict`. -/
theorem C5_track_name_validation :
    (∀ (store : List (String × WalletRecord)) existsFail client now name address,
      name.data.all rustIsWhitespace = true →
      (trackExecute store existsFail client now name address).1 = .error .NameEmpty)
    ∧ (∀ (store : List (String × WalletRecord)) existsFail client now name address,
      name.data.all rustIsWhitespace = false → NAME_MAX < name.data.length →
      (trackExecute store existsFail client now name address).1 = .error .NameTooLong)
    ∧ (∀ (store : List (String × WalletRecord)) client now name address,
      validate_name name = none → storeExists name store = true →
      (trackExecute store false client now name address).1 = .error .NameConflict)
    ∧ (∀ (store : List (String × WalletRecord)) client client' now now'
        name address address' store',
      trackExecute store false client now name address = (.ok (), store') →
      (trackExecute store' false client' now' name address').1
        = .error .NameConflict) := by
  have hempty : ∀ (store : List (String × WalletRecord)) existsFail client now name address,
      name.data.all rustIsWhitespace = true →
      (trackExecute store existsFail client now name address).1 = .error .NameEmpty := by
    intro store existsFail client now name address h
    unfold trackExecute validate_name
    rw [if_pos h]
  have hconflict : ∀ (store : List (String × WalletRecord)) client now name address,
      validate_name name = none → storeExists name store = true →
      (trackExecute store false client now name address).1 = .error .NameConflict := by
    intro store client now name address hv hex
    unfold trackExecute
    rw [hv, hex]
    simp
  refine ⟨hempty, ?_, hconflict, ?_⟩
  · intro store existsFail client now name address hws hlong
    unfold trackExecute validate_name
    rw [if_neg (by simp [hws]), if_pos hlong]
  · intro store client client' now now' name address address' store' h
    obtain ⟨hv, -, -, a, bal, -, -, hstore'⟩ :=
      trackExecute_ok_inv store false client now name address store' h
    exact hconflict store' client' now' name address' hv
      (hstore' ▸ storeExists_storeSave_self name _ store)

/-- **C5 counterexample** to the claim as stated: a name of 31 spaces has
31 Unicode code points but Track fails `NameEmpty`, not `NameTooLong` —
the blank check runs before the length check. -/
theorem C5_track_name_validation_counterexample :
    (String.mk (List.replicate 31 ' ')).data.length = 31
    ∧ (trackExecute [] false (fun _ => .ok 0) 0
        (String.mk (List.replicate 31 ' ')) []).1 = .error .NameEmpty
    ∧ (trackExecute [] false (fun _ => .ok 0) 0
        (String.mk (List.replicate 31 ' ')) []).1 ≠ .error .NameTooLong := by
  refine ⟨?_, ?_, ?_⟩ <;> decide

/-- **C5 witness**: a blank name fails `NameEmpty`; a 31-letter name fails
`NameTooLong`; tracking `"w"` into a store already holding `"w"` fails
`NameConflict`; re-tracking `"w"` after a successful Track fails
`NameConflict`. -/
theorem C5_track_name_validation_witness :
    (trackExecute [] false (fun _ => .ok 0) 0 "" []).1 = .error .NameEmpty
    ∧ (trackExecute [] false (fun _ => .ok 0) 0
        (String.mk (List.replicate 31 'a')) []).1 = .error .NameTooLong
    ∧ (trackExecute [("w", ⟨⟨[], 0⟩, 0⟩)] false (fun _ => .ok 0) 0 "w" []).1
        = .error .NameConflict
    ∧ (trackExecute
        (trackExecute [] false (fun _ => .ok 0) 0 "w"
          (48 :: 120 :: [100, 56, 100, 65, 54, 66, 70, 50, 54, 57, 54, 52, 97,
            70, 57, 68, 55, 101, 69, 100, 57, 101, 48, 51, 69, 53, 51, 52, 49,
            53, 68, 51, 55, 97, 65, 57, 54, 48, 52, 53])).2
        false (fun _ => .ok 0) 0 "w" []).1 = .error .NameConflict := by
  refine ⟨C5_track_name_validation.1 [] false _ 0 "" [] (by decide),
    C5_track_name_validation.2.1 [] false _ 0 _ [] (by decide) (by decide),
    C5_track_name_validation.2.2.1 _ _ 0 "w" [] (by decide) (by decide),
    C5_track_name_validation.2.2.2 [] (fun _ => .ok 0) (fun _ => .ok 0) 0 0 "w"
      (48 :: 120 :: [100, 56, 100, 65, 54, 66, 70, 50, 54, 57, 54, 52, 97,
        70, 57, 68, 55, 101, 69, 100, 57, 101, 48, 51, 69, 53, 51, 52, 49,
        53, 68, 51, 55, 97, 65, 57, 54, 48, 52, 53]) []
      ((trackExecute [] false (fun _ => .ok 0) 0 "w"
        (48 :: 120 :: [100, 56, 100, 65, 54, 66, 70, 50, 54, 57, 54, 52, 97,
          70, 57, 68, 55, 101, 69, 100, 57, 101, 48, 51, 69, 53, 51, 52, 49,
          53, 68, 51, 55, 97, 65, 57, 54, 48, 52, 53])).2) ?_⟩
  decide

/-- **C10.** Track is atomic with respect to the store: on any error the
mapping is returned unchanged; the call succeeds exactly when name
validation, the existence check, address parsing and the chain query all
succeed; and in that case — and only then — `Store.save` runs, as the
final step. -/
theorem C10_track_atomic :
    (∀ (store : List (String × WalletRecord)) existsFail client now name address e,
      (trackExecute store existsFail client now name address).1 = .error e →
      (trackExecute store existsFail client now name address).2 = store)
    ∧ (∀ (store : List (String × WalletRecord)) existsFail client now name address,
      (trackExecute store existsFail client now name address).1 = .ok () ↔
        (validate_name name = none ∧ existsFail = false ∧
         storeExists name store = false ∧
         ∃ a bal, addressFromStr address = .ok a ∧ client a = .ok bal))
    ∧ (∀ (store : List (String × WalletRecord)) client now name address a bal,
      validate_name name = none → storeExists name store = false →
      addressFromStr address = .ok a → client a = .ok bal →
      trackExecute store false client now name address
        = (.ok (), storeSave name ⟨⟨a, bal⟩, now⟩ store)) := by
  have hrun : ∀ (store : List (String × WalletRecord)) client now name address a bal,
      validate_name name = none → storeExists name store = false →
      addressFromStr address = .ok a → client a = .ok bal →
      trackExecute store false client now name address
        = (.ok (), storeSave name ⟨⟨a, bal⟩, now⟩ store) := by
    intro store client now name address a bal hv hex hp hc
    unfold trackExecute
    rw [hv, hex, hp]
    simp only [Bool.false_eq_true, if_false]
    rw [hc]
  have hframe : ∀ (store : List (String × WalletRecord)) existsFail client now name address,
      (trackExecute store existsFail client now name address).2 = store
      ∨ (trackExecute store existsFail client now name address).1 = .ok () := by
    intro store existsFail client now name address
    unfold trackExecute
    rcases validate_name name with _ | e
    case some => exact Or.inl rfl
    rcases existsFail with _ | _
    case true => exact Or.inl rfl
    rcases storeExists name store with _ | _
    case true => exact Or.inl rfl
    rcases addressFromStr address with e | a
    case error => exact Or.inl rfl
    dsimp only
    rcases client a with e | bal
    case error => exact Or.inl rfl
    exact Or.inr rfl
  refine ⟨?_, ?_, hrun⟩
  · intro store existsFail client now name address e h
    rcases hframe store existsFail client now name address with h2 | h2
    · exact h2
    · rw [h] at h2
      exact absurd h2 (by simp)
  · intro store existsFail client now name address
    constructor
    · intro h
      have h' : trackExecute store existsFail client now name address
          = (.ok (), (trackExecute store existsFail client now name address).2) :=
        Prod.ext h rfl
      obtain ⟨hv, hef, hex, a, bal, hp, hc, -⟩ :=
        trackExecute_ok_inv store existsFail client now name address _ h'
      exact ⟨hv, hef, hex, a, bal, hp, hc⟩
    · rintro ⟨hv, hef, hex, a, bal, hp, hc⟩
      subst hef
      rw [hrun store client now name address a bal hv hex hp hc]

/-- **C10 witness**: a failing `exists` read (store error) leaves the
mapping unchanged; and the happy path at the canonical address saves
exactly one new record. -/
theorem C10_track_atomic_witness :
    (trackExecute [("k", ⟨⟨[], 0⟩, 0⟩)] true (fun _ => .ok 0) 0 "w" []).2
      = [("k", ⟨⟨[], 0⟩, 0⟩)]
    ∧ trackExecute [] false (fun _ => .ok 7) 5 "w"
        (48 :: 120 :: [100, 56, 100, 65, 54, 66, 70, 50, 54, 57, 54, 52, 97,
          70, 57, 68, 55, 101, 69, 100, 57, 101, 48, 51, 69, 53, 51, 52, 49,
          53, 68, 51, 55, 97, 65, 57, 54, 48, 52, 53])
      = (.ok (), [("w", ⟨⟨[216, 218, 107, 242, 105, 100, 175, 157, 126, 237,
          158, 3, 229, 52, 21, 211, 122, 169, 96, 69], 7⟩, 5⟩)]) := by
  refine ⟨C10_track_atomic.1 [("k", ⟨⟨[], 0⟩, 0⟩)] true (fun _ => .ok 0) 0 "w" []
      .WalletStore (by decide), ?_⟩
  rw [C10_track_atomic.2.2 [] (fun _ => .ok 7) 5 "w" _
    [216, 218, 107, 242, 105, 100, 175, 157, 126, 237, 158, 3, 229, 52, 21,
      211, 122, 169, 96, 69] 7 (by decide) (by decide) (by decide) (by decide)]
  decide

/-- **C8.** Untrack of a name absent from the store fails `NotFound` and
leaves the mapping unchanged; after a successful Track of a previously
untracked name, Untrack of that name succeeds and removes exactly that
record (returning the mapping to its prior state), and a subsequent
Untrack of the same name fails `NotFound`. -/
theorem C8_untrack :
    (∀ (store : List (String × WalletRecord)) name,
      storeExists name store = false →
      untrackExecute store false name = (.error .NotFound, store))
    ∧ (∀ (store : List (String × WalletRecord)) client now name address store',
      storeExists name store = false →
      trackExecute store false client now name address = (.ok (), store') →
      untrackExecute store' false name = (.ok (), store)
      ∧ untrackExecute store false name = (.error .NotFound, store)) := by
  have hnf : ∀ (store : List (String × WalletRecord)) name,
      storeExists name store = false →
      untrackExecute store false name = (.error .NotFound, store) := by
    intro store name h
    unfold untrackExecute
    rw [h]
    simp
  refine ⟨hnf, ?_⟩
  intro store client now name address store' hex htrack
  obtain ⟨-, -, -, a, bal, -, -, hstore'⟩ :=
    trackExecute_ok_inv store false client now name address store' htrack
  subst hstore'
  refine ⟨?_, hnf store name hex⟩
  unfold untrackExecute
  rw [storeExists_storeSave_self]
  simp only [Bool.not_true, Bool.false_eq_true, if_false]
  rw [storeSave_not_exists name _ store hex, storeDelete_append_self name _ store hex]

/-- **C8 witness**: untracking `"w"` from an empty store is `NotFound`;
tracking `"w"` at the canonical address then untracking it returns the
empty store, and untracking again is `NotFound`. -/
theorem C8_untrack_witness :
    untrackExecute [] false "w" = (.error .NotFound, [])
    ∧ untrackExecute
        (trackExecute [] false (fun _ => .ok 7) 5 "w"
          (48 :: 120 :: [100, 56, 100, 65, 54, 66, 70, 50, 54, 57, 54, 52, 97,
            70, 57, 68, 55, 101, 69, 100, 57, 101, 48, 51, 69, 53, 51, 52, 49,
            53, 68, 51, 55, 97, 65, 57, 54, 48, 52, 53])).2
        false "w" = (.ok (), []) := by
  refine ⟨(C8_untrack.1 [] "w" (by decide)), ?_⟩
  obtain ⟨h1, -⟩ := C8_untrack.2 [] (fun _ => .ok 7) 5 "w"
    (48 :: 120 :: [100, 56, 100, 65, 54, 66, 70, 50, 54, 57, 54, 52, 97,
      70, 57, 68, 55, 101, 69, 100, 57, 101, 48, 51, 69, 53, 51, 52, 49,
      53, 68, 51, 55, 97, 65, 57, 54, 48, 52, 53])
    (trackExecute [] false (fun _ => .ok 7) 5 "w"
      (48 :: 120 :: [100, 56, 100, 65, 54, 66, 70, 50, 54, 57, 54, 52, 97,
        70, 57, 68, 55, 101, 69, 100, 57, 101, 48, 51, 69, 53, 51, 52, 49,
        53, 68, 51, 55, 97, 65, 57, 54, 48, 52, 53])).2
    (by decide) (by decide)
  exact h1

/-- **C7.** For every store content — and for every lowercasing function,
so in particular for the standard library's full Unicode
`str::to_lowercase` — List returns the projected wallet views sorted by
lowercased name: the output is sorted under `viewLe lower`, is a
permutation of the projected snapshot, and is stable — any pair in
snapshot order whose first component compares `≤` (in particular, ties)
stays in that order. After tracking `b-wallet`, `A-wallet` and `c-wallet`
(ASCII names, on which `str::to_lowercase` is the ASCII mapping) the
output order is `A-wallet`, `b-wallet`, `c-wallet`. -/
theorem C7_list_sorted_case_insensitive :
    (∀ (lower : String → String) (store : List (String × WalletRecord)),
        List.Sorted (viewLe lower) (listExecute lower store))
    ∧ (∀ (lower : String → String) (store : List (String × WalletRecord)),
        List.Perm (listExecute lower store) (store.map recordToView))
    ∧ (∀ (lower : String → String) (store : List (String × WalletRecord))
        (a b : WalletView), viewLe lower a b →
        List.Sublist [a, b] (store.map recordToView) →
        List.Sublist [a, b] (listExecute lower store))
    ∧ (listExecute asciiToLowercase [("b-wallet", ⟨⟨[], 0⟩, 0⟩),
        ("A-wallet", ⟨⟨[], 0⟩, 0⟩), ("c-wallet", ⟨⟨[], 0⟩, 0⟩)]).map WalletView.name
      = ["A-wallet", "b-wallet", "c-wallet"] := by
  refine ⟨fun lower store => List.sorted_insertionSort (viewLe lower) _,
    fun lower store => List.perm_insertionSort (viewLe lower) _,
    fun lower store a b hab h => List.pair_sublist_insertionSort hab h,
    ?_⟩
  decide

/-- **C7 witness**: sortedness at a one-record store, and stability at a
store whose two names `Same` and `same` tie under the lowercased
comparison — they keep their snapshot order. -/
theorem C7_list_sorted_case_insensitive_witness :
    List.Sorted (viewLe asciiToLowercase)
      (listExecute asciiToLowercase [("s", ⟨⟨[], 0⟩, 0⟩)])
    ∧ List.Sublist
        [recordToView ("Same", ⟨⟨[], 1⟩, 0⟩), recordToView ("same", ⟨⟨[], 2⟩, 0⟩)]
        (listExecute asciiToLowercase
          [("Same", ⟨⟨[], 1⟩, 0⟩), ("same", ⟨⟨[], 2⟩, 0⟩)]) :=
  ⟨C7_list_sorted_case_insensitive.1 asciiToLowercase [("s", ⟨⟨[], 0⟩, 0⟩)],
   C7_list_sorted_case_insensitive.2.2.1 asciiToLowercase
     [("Same", ⟨⟨[], 1⟩, 0⟩), ("same", ⟨⟨[], 2⟩, 0⟩)]
     (recordToView ("Same", ⟨⟨[], 1⟩, 0⟩)) (recordToView ("same", ⟨⟨[], 2⟩, 0⟩))
     (by decide) (List.Sublist.refl _)⟩

/-! ### Refresh sweep lemmas -/

theorem refreshGo_find_untouched (client : List Nat → Except Unit Nat) (n : String) :
    ∀ (snapshot st : List (String × CoreWallet)),
      (∀ f ∈ snapshot, f.1 ≠ n) →
      storeFind n (refreshGo client snapshot st).2 = storeFind n st
  | [], _, _ => rfl
  | f :: rest, st, h => by
    simp only [refreshGo, refreshWallet]
    rcases client f.2.address with e | bal
    · rfl
    · dsimp only
      rw [refreshGo_find_untouched client n rest _
          (fun f' hf' => h f' (List.mem_cons_of_mem f hf')),
        storeFind_storeSave_other n f.1 _ (h f (List.mem_cons_self f rest))]

theorem refreshGo_ok_iff (client : List Nat → Except Unit Nat) :
    ∀ (snapshot st : List (String × CoreWallet)),
      (refreshGo client snapshot st).1 = .ok ()
        ↔ ∀ e ∈ snapshot, ∃ b, client e.2.address = .ok b
  | [], st => by simp [refreshGo]
  | f :: rest, st => by
    simp only [refreshGo, refreshWallet]
    rcases hc : client f.2.address with e | bal
    · simp only [List.mem_cons]
      constructor
      · intro h
        exact absurd h (by simp)
      · intro h
        obtain ⟨b, hb⟩ := h f (Or.inl rfl)
        rw [hc] at hb
        exact absurd hb (by simp)
    · dsimp only
      rw [refreshGo_ok_iff client rest _]
      constructor
      · intro h e he
        rcases List.mem_cons.mp he with rfl | hmem
        · exact ⟨bal, hc⟩
        · exact h e hmem
      · intro h e he
        exact h e (List.mem_cons_of_mem f he)

theorem refreshGo_error_kind (client : List Nat → Except Unit Nat) :
    ∀ (snapshot st : List (String × CoreWallet)),
      (refreshGo client snapshot st).1 = .ok ()
        ∨ (refreshGo client snapshot st).1 = .error .WalletClient
  | [], st => Or.inl rfl
  | f :: rest, st => by
    simp only [refreshGo, refreshWallet]
    rcases client f.2.address with e | bal
    · exact Or.inr rfl
    · exact refreshGo_error_kind client rest _

theorem refreshGo_find_ok (client : List Nat → Except Unit Nat) :
    ∀ (snapshot st : List (String × CoreWallet)),
      (∀ e ∈ snapshot, ∃ b, client e.2.address = .ok b) →
      List.Pairwise (fun e1 e2 => e1.1 ≠ e2.1) snapshot →
      ∀ e ∈ snapshot, ∃ b, client e.2.address = .ok b ∧
        storeFind e.1 (refreshGo client snapshot st).2 = some ⟨e.2.address, b⟩
  | [], _, _, _ => by simp
  | f :: rest, st, hok, hpw => by
    obtain ⟨bal, hbal⟩ := hok f (List.mem_cons_self f rest)
    intro e he
    simp only [refreshGo, refreshWallet, hbal]
    rcases List.mem_cons.mp he with rfl | hmem
    · refine ⟨bal, hbal, ?_⟩
      rw [refreshGo_find_untouched client e.1 rest _
          (fun f' hf' => ((List.pairwise_cons.mp hpw).1 f' hf').symm),
        storeFind_storeSave_self]
    · exact refreshGo_find_ok client rest _
        (fun e' he' => hok e' (List.mem_cons_of_mem f he'))
        (List.pairwise_cons.mp hpw).2 e hmem

/-- **C4 (amended).** The Refresh sweep is fail-fast, not per-item error
collecting: it succeeds exactly when every tracked wallet's chain query
succeeds (and then every wallet's freshly queried balance is persisted
under its name); any failure surfaces as a single `WalletClient` error,
and wallets not yet refreshed when `try_join_all` hits the first failure —
including wallets whose own query would succeed — are not persisted. -/
theorem C4_refresh_fail_fast :
    (∀ (client : List Nat → Except Unit Nat) (store : List (String × CoreWallet)),
      (refreshExecute client store).1 = .ok ()
        ↔ ∀ e ∈ store, ∃ b, client e.2.address = .ok b)
    ∧ (∀ (client : List Nat → Except Unit Nat) (store : List (String × CoreWallet)),
      (refreshExecute client store).1 = .ok ()
        ∨ (refreshExecute client store).1 = .error .WalletClient)
    ∧ (∀ (client : List Nat → Except Unit Nat) (store : List (String × CoreWallet)),
      (∀ e ∈ store, ∃ b, client e.2.address = .ok b) →
      List.Pairwise (fun e1 e2 => e1.1 ≠ e2.1) store →
      ∀ e ∈ store, ∃ b, client e.2.address = .ok b ∧
        storeFind e.1 (refreshExecute client store).2 = some ⟨e.2.address, b⟩) :=
  ⟨fun client store => refreshGo_ok_iff client store store,
   fun client store => refreshGo_error_kind client store store,
   fun client store hok hpw => refreshGo_find_ok client store store hok hpw⟩

/-- **C4 counterexample** to per-item error collection: two tracked
wallets; the chain query fails for the first and would succeed for the
second (returning 7), yet the sweep aborts with `WalletClient` and the
second wallet's balance stays at its old value 2 — its successful query is
not persisted. -/
theorem C4_refresh_counterexample :
    (refreshExecute (fun a => if a == [1] then .ok 7 else .error ())
      [("a", ⟨[0], 1⟩), ("b", ⟨[1], 2⟩)]).1 = .error .WalletClient
    ∧ (fun a => if a == [1] then (.ok 7 : Except Unit Nat) else .error ()) [1] = .ok 7
    ∧ storeFind "b" (refreshExecute (fun a => if a == [1] then .ok 7 else .error ())
      [("a", ⟨[0], 1⟩), ("b", ⟨[1], 2⟩)]).2 = some ⟨[1], 2⟩ := by
  refine ⟨?_, ?_, ?_⟩ <;> decide

/-- **C4 witness**: a one-wallet store whose query succeeds refreshes
cleanly and persists the new balance 5. -/
theorem C4_refresh_fail_fast_witness :
    (refreshExecute (fun _ => (.ok 5 : Except Unit Nat)) [("a", ⟨[0], 1⟩)]).1 = .ok ()
    ∧ ∃ b, (fun _ => (.ok 5 : Except Unit Nat)) ([0] : List Nat) = .ok b ∧
        storeFind "a" (refreshExecute (fun _ => (.ok 5 : Except Unit Nat))
          [("a", ⟨[0], 1⟩)]).2 = some ⟨[0], b⟩ :=
  ⟨(C4_refresh_fail_fast.1 (fun _ => (.ok 5 : Except Unit Nat))
      [("a", ⟨[0], 1⟩)]).mpr (fun e _ => ⟨5, rfl⟩),
   C4_refresh_fail_fast.2.2 (fun _ => (.ok 5 : Except Unit Nat))
     [("a", ⟨[0], 1⟩)] (fun e _ => ⟨5, rfl⟩) (by simp)
     ("a", ⟨[0], 1⟩) (by simp)⟩

/-! ### Round trip of the persisted store encoding -/

theorem takeBytes_append : ∀ (l rest : List Nat),
    takeBytes l.length (l ++ rest) = some (l, rest)
  | [], _ => rfl
  | b :: l, rest => by
    have ih := takeBytes_append l rest
    simp only [List.length_cons, List.cons_append, List.append_eq, takeBytes]
    rw [ih]

theorem bytesToLane_laneBytes : ∀ (k n : Nat), n < 256 ^ k →
    bytesToLane (laneBytes k n) = n
  | 0, n, h => by
    simp only [pow_zero] at h
    simp only [laneBytes, bytesToLane, List.foldr_nil]
    omega
  | k + 1, n, h => by
    have hdiv : n / 256 < 256 ^ k := by
      rw [pow_succ] at h
      omega
    simp only [laneBytes, bytesToLane, List.foldr_cons]
    have ih := bytesToLane_laneBytes k (n / 256) hdiv
    simp only [bytesToLane] at ih
    rw [ih]
    omega

theorem decodeVarint_encodeVarint (n : Nat) (h : n < 2 ^ 128) (rest : List Nat) :
    decodeVarint (encodeVarint n ++ rest) = some (n, rest) := by
  by_cases h1 : n < 251
  · rw [encodeVarint, if_pos h1]
    show decodeVarint (n :: rest) = _
    simp only [decodeVarint]
    rw [if_pos h1]
  by_cases h2 : n < 2 ^ 16
  · rw [encodeVarint, if_neg h1, if_pos h2]
    show decodeVarint (251 :: (laneBytes 2 n ++ rest)) = _
    have ht := takeBytes_append (laneBytes 2 n) rest
    rw [laneBytes_length] at ht
    simp only [decodeVarint, ht, Option.map, if_true, if_false]
    rw [bytesToLane_laneBytes 2 n (by norm_num at h2 ⊢; omega)]
    norm_num
  by_cases h3 : n < 2 ^ 32
  · rw [encodeVarint, if_neg h1, if_neg h2, if_pos h3]
    show decodeVarint (252 :: (laneBytes 4 n ++ rest)) = _
    have ht := takeBytes_append (laneBytes 4 n) rest
    rw [laneBytes_length] at ht
    simp only [decodeVarint, ht, Option.map, if_true, if_false]
    rw [bytesToLane_laneBytes 4 n (by norm_num at h3 ⊢; omega)]
    norm_num
  by_cases h4 : n < 2 ^ 64
  · rw [encodeVarint, if_neg h1, if_neg h2, if_neg h3, if_pos h4]
    show decodeVarint (253 :: (laneBytes 8 n ++ rest)) = _
    have ht := takeBytes_append (laneBytes 8 n) rest
    rw [laneBytes_length] at ht
    simp only [decodeVarint, ht, Option.map, if_true, if_false]
    rw [bytesToLane_laneBytes 8 n (by norm_num at h4 ⊢; omega)]
    norm_num
  · rw [encodeVarint, if_neg h1, if_neg h2, if_neg h3, if_neg h4]
    show decodeVarint (254 :: (laneBytes 16 n ++ rest)) = _
    have ht := takeBytes_append (laneBytes 16 n) rest
    rw [laneBytes_length] at ht
    simp only [decodeVarint, ht, Option.map, if_true, if_false]
    rw [bytesToLane_laneBytes 16 n (by norm_num at h ⊢; omega)]
    norm_num

theorem unzigzag_zigzag (i : Int) : unzigzag (zigzag i) = i := by
  unfold zigzag unzigzag
  split_ifs <;> omega

theorem zigzag_lt (i : Int) (hlo : -(2 ^ 63) ≤ i) (hhi : i < 2 ^ 63) :
    zigzag i < 2 ^ 128 := by
  have h63 : ((2 : Int) ^ 63) = 9223372036854775808 := by norm_num
  have h128 : (2 : Nat) ^ 128 = 340282366920938463463374607431768211456 := by norm_num
  unfold zigzag
  rw [h63] at hlo hhi
  rw [h128]
  split_ifs <;> omega

theorem decodeWallet_encodeWallet (w : FsWallet) (hwf : FsWalletWF w)
    (rest : List Nat) :
    decodeWallet (encodeWallet w ++ rest) = some (w, rest) := by
  obtain ⟨hlen, hbal, hlo, hhi⟩ := hwf
  unfold encodeWallet decodeWallet
  rw [List.append_assoc, List.append_assoc]
  have h20 := takeBytes_append w.address
    (encodeVarint w.balance ++ (encodeVarint (zigzag w.last_update) ++ rest))
  rw [hlen] at h20
  rw [h20]
  dsimp only
  rw [decodeVarint_encodeVarint _ hbal]
  dsimp only
  rw [decodeVarint_encodeVarint _ (zigzag_lt _ hlo hhi)]
  dsimp only
  rw [unzigzag_zigzag]

theorem decodeEntry_encodeEntry (name : List Nat) (hname : name.length < 2 ^ 128)
    (w : FsWallet) (hwf : FsWalletWF w) (rest : List Nat) :
    decodeEntry (encodeEntry (name, w) ++ rest) = some ((name, w), rest) := by
  unfold encodeEntry decodeEntry
  dsimp only
  rw [List.append_assoc, List.append_assoc]
  rw [decodeVarint_encodeVarint _ hname]
  dsimp only
  rw [takeBytes_append name (encodeWallet w ++ rest)]
  dsimp only
  rw [decodeWallet_encodeWallet w hwf rest]

theorem decodeEntries_encode :
    ∀ (m : List (List Nat × FsWallet)) (rest : List Nat),
      (∀ e ∈ m, e.1.length < 2 ^ 64 ∧ FsWalletWF e.2) →
      decodeEntries m.length (m.flatMap encodeEntry ++ rest) = some (m, rest)
  | [], rest, _ => rfl
  | e :: m, rest, h => by
    obtain ⟨hname, hwf⟩ := h e (List.mem_cons_self e m)
    simp only [List.length_cons, List.flatMap_cons, List.append_assoc,
      decodeEntries]
    have he := decodeEntry_encodeEntry e.1 (by
        have : (2 : Nat) ^ 64 < 2 ^ 128 := by norm_num
        omega) e.2 hwf (m.flatMap encodeEntry ++ rest)
    rw [he]
    dsimp only
    rw [decodeEntries_encode m rest (fun e' he' => h e' (List.mem_cons_of_mem e he'))]

/-- **C6.** The persisted store encoding round-trips losslessly: writing
the full in-memory mapping and reopening a store from the same backing
bytes yields an identical mapping, record for record. The hypotheses are
what the Rust types guarantee: names and the map fit in a `usize`,
addresses are 20 bytes, balances are `u128`, timestamps are `i64`. -/
theorem C6_store_roundtrip (m : List (List Nat × FsWallet))
    (hlen : m.length < 2 ^ 64)
    (hwf : ∀ e ∈ m, e.1.length < 2 ^ 64 ∧ FsWalletWF e.2) :
    storeOpenBytes (encodeStore m) = some m := by
  unfold storeOpenBytes decodeStore encodeStore
  rw [decodeVarint_encodeVarint m.length (by
    have : (2 : Nat) ^ 64 < 2 ^ 128 := by norm_num
    omega)]
  have hd := decodeEntries_encode m [] hwf
  rw [List.append_nil] at hd
  dsimp only
  rw [hd]

/-- **C6 witness**: a one-record store (name `"a"`, the zero address,
Vitalik's balance, a 2023 timestamp) survives write-then-open
byte-for-byte. -/
theorem C6_store_roundtrip_witness :
    storeOpenBytes (encodeStore
      [([97], ⟨List.replicate 20 0, 3756447340569860785, 1700000000⟩)])
      = some [([97], ⟨List.replicate 20 0, 3756447340569860785, 1700000000⟩)] :=
  C6_store_roundtrip _ (by decide)
    (by
      intro e he
      simp only [List.mem_singleton] at he
      subst he
      refine ⟨by decide, by decide, by decide, by decide, by decide⟩)

end MiniWallet
